import Mathlib

/-!
# Verification of the SSIM-X scoring core

Shallow embedding of `src/ssimx/ssimx.cpp` (the SSIMULACRA variant "SSIM-X").
Double-precision values are modelled as rationals; the external OpenCV
primitives (Gaussian blur, area-average resize) are abstract per-plane
operator families, exactly as the design document treats them: the core
specifies how they are invoked and composed, not how they are implemented.
Images are total functions from (row, col, channel) to sample values; the
pipeline only ever reads coordinates inside the current dimensions.
-/

namespace SsimX

/-- A single-channel plane of samples, indexed (row, col). -/
abbrev Plane := ℕ → ℕ → ℚ

/-- A multi-channel image buffer, indexed (row, col, channel). -/
abbrev Img := ℕ → ℕ → ℕ → ℚ

/-- A family of per-plane image operators indexed by the source dimensions
(rows, cols).  The Gaussian blur (11×11, sigma 1.5) and the two area-average
resizes of the program are instances of this shape. -/
abbrev ImgOp := ℕ → ℕ → Plane → Plane

/-- SSIM stabilisation constant `C1 = 0.0001` (ssimx.cpp line 95). -/
def C1 : ℚ := 0.0001

/-- SSIM stabilisation constant `C2 = 0.0004` (ssimx.cpp line 95). -/
def C2 : ℚ := 0.0004

/-- Per-channel, per-scale weights for the average SSIM (lines 104-110). -/
def scale_weights_table : List (List ℚ) :=
  [[0.0448, 0.2856, 0.3001, 0.2363, 0.1333, 0.1],
   [0.015, 0.0448, 0.2856, 0.3001, 0.3363, 0.25],
   [0.015, 0.0448, 0.2856, 0.3001, 0.3363, 0.25],
   [0.0448, 0.2856, 0.3001, 0.2363, 0.1333, 0.1]]

/-- `scale_weights[i][scale]` lookup. -/
def scale_weights (i s : ℕ) : ℚ := (scale_weights_table.getD i []).getD s 0

/-- Chroma/alpha weight multiplier (line 113). -/
def chroma_weight : ℚ := 0.2

/-- Per-channel, per-scale weights for the worst-case score (lines 117-123). -/
def mscale_weights_table : List (List ℚ) :=
  [[0.2, 0.3, 0.25, 0.2, 0.12, 0.05],
   [0.01, 0.05, 0.2, 0.3, 0.35, 0.35],
   [0.01, 0.05, 0.2, 0.3, 0.35, 0.35],
   [0.2, 0.3, 0.25, 0.2, 0.12, 0.05]]

/-- `mscale_weights[i][scale]` lookup. -/
def mscale_weights (i s : ℕ) : ℚ := (mscale_weights_table.getD i []).getD s 0

/-- Weights for the worst local artifact (line 127). -/
def min_weight_table : List ℚ := [0.1, 0.005, 0.005, 0.005]

/-- `min_weight[i]` lookup. -/
def min_weight (i : ℕ) : ℚ := min_weight_table.getD i 0

/-- Weights for artifact edges (line 130). -/
def extra_edges_weight_table : List ℚ := [1.5, 0.1, 0.1, 0.5]

/-- `extra_edges_weight[i]` lookup. -/
def extra_edges_weight (i : ℕ) : ℚ := extra_edges_weight_table.getD i 0

/-- Weights for grid-like artifacts, one row per variant (lines 133-135):
row 0 is used on the SSIM heatmap, row 1 on the extra-edges heatmap. -/
def worst_grid_weight_table : List (List ℚ) :=
  [[1.0, 0.1, 0.1, 0.5],
   [1.0, 0.1, 0.1, 0.5]]

/-- `worst_grid_weight[variant][i]` lookup. -/
def worst_grid_weight (v i : ℕ) : ℚ := (worst_grid_weight_table.getD v []).getD i 0

/-- Extract channel `c` of an image as a plane. -/
def plane (img : Img) (c : ℕ) : Plane := fun y x => img y x c

/-- Apply a per-plane operator to every channel of an image (OpenCV primitives
operate on each channel independently). -/
def applyOp (op : ImgOp) (r c : ℕ) (img : Img) : Img :=
  fun y x ch => op r c (plane img ch) y x

/-- Pointwise product of two images (`cv::multiply` with scale 1). -/
def mulImg (a b : Img) : Img := fun y x c => a y x c * b y x c

/-- Pointwise square of an image (`cv::pow(·, 2, ·)`). -/
def sqImg (a : Img) : Img := fun y x c => a y x c ^ 2

/-- The per-pixel per-channel SSIM map of one scale, following the operation
sequence of lines 345-355 and 390-415: `mu1_mu2 := 2*mu1*mu2`;
`sigma12 := 2*blur(img1*img2) - mu1_mu2 + C2`; numerator `(mu1_mu2+C1)*sigma12`;
denominator `(mu1^2+mu2^2+C1) * (blur(img1^2)+blur(img2^2)-(mu1^2+mu2^2)+C2)`;
map = numerator / denominator. -/
def ssimMap (B : ImgOp) (r c : ℕ) (f g : Img) : Img := fun y x ch =>
  let mu1 := applyOp B r c f y x ch
  let mu2 := applyOp B r c g y x ch
  let sigma12 := 2 * applyOp B r c (mulImg f g) y x ch - 2 * (mu1 * mu2) + C2
  let num := (2 * (mu1 * mu2) + C1) * sigma12
  let den := (mu1 ^ 2 + mu2 ^ 2 + C1) *
    (applyOp B r c (sqImg f) y x ch + applyOp B r c (sqImg g) y x ch -
      (mu1 ^ 2 + mu2 ^ 2) + C2)
  num / den

/-- Per-channel mean over the whole plane (`cv::mean`): sum divided by the
number of pixels. -/
def planeMean (r c : ℕ) (p : Plane) : ℚ :=
  (∑ y ∈ Finset.range r, ∑ x ∈ Finset.range c, p y x) / ((r : ℚ) * c)

/-- Mean of one row of channel `i` (the `Rect(0, y, cols, 1)` ROI, line 167). -/
def rowMean (c : ℕ) (m : Img) (y i : ℕ) : ℚ := (∑ x ∈ Finset.range c, m y x i) / c

/-- Mean of one column of channel `i` (the `Rect(x, 0, 1, rows)` ROI, line 178). -/
def colMean (r : ℕ) (m : Img) (x i : ℕ) : ℚ := (∑ y ∈ Finset.range r, m y x i) / r

/-- The list of all row means of channel `i`. -/
def rowMeans (r c : ℕ) (m : Img) (i : ℕ) : List ℚ :=
  (List.range r).map fun y => rowMean c m y i

/-- The list of all column means of channel `i`. -/
def colMeans (r c : ℕ) (m : Img) (i : ℕ) : List ℚ :=
  (List.range c).map fun x => colMean r m x i

/-- The value the grid detector's `k++ >= n/50` loop (lines 172/183) stops at:
the element at 0-based position `n / 50` of the ascending multiset of means. -/
def pickWorst (l : List ℚ) (n : ℕ) : ℚ := (List.insertionSort (· ≤ ·) l).getD (n / 50) 0

/-- `grid_artifacts` (lines 159-186) as a pure (score delta, score_max delta)
pair: per channel, the 0-based `rows/50`-th smallest row mean and the
`cols/50`-th smallest column mean, each weighted by
`worst_grid_weight[variant][channel]`; each channel adds its weight twice to
the weight sum (once for rows, once for columns). -/
def gridArtifacts (r c ch : ℕ) (m : Img) (variant : ℕ) : ℚ × ℚ :=
  ((∑ i ∈ Finset.range ch, worst_grid_weight variant i * pickWorst (rowMeans r c m i) r) +
     ∑ i ∈ Finset.range ch, worst_grid_weight variant i * pickWorst (colMeans r c m i) c,
   (∑ i ∈ Finset.range ch, worst_grid_weight variant i) +
     ∑ i ∈ Finset.range ch, worst_grid_weight variant i)

/-- Scale-0 edge difference `max(|img2 - mu2| - |img1 - mu1|, 0)` (line 359). -/
def edgeDiff (B : ImgOp) (r c : ℕ) (f g : Img) : Img := fun y x ch =>
  max (|g y x ch - applyOp B r c g y x ch| - |f y x ch - applyOp B r c f y x ch|) 0

/-- The remapped edge map `1 - edgediff` (line 380). -/
def edgeMap (B : ImgOp) (r c : ℕ) (f g : Img) : Img := fun y x ch =>
  1 - edgeDiff B r c f g y x ch

/-- Scale-0 edge contributions (lines 382-387): per-channel mean of the edge
map weighted by `extra_edges_weight`, plus `grid_artifacts` on the edge map
with variant 1. -/
def edgeContribs (B : ImgOp) (r c ch : ℕ) (f g : Img) : ℚ × ℚ :=
  ((∑ i ∈ Finset.range ch, extra_edges_weight i * planeMean r c (plane (edgeMap B r c f g) i)) +
     (gridArtifacts r c ch (edgeMap B r c f g) 1).1,
   (∑ i ∈ Finset.range ch, extra_edges_weight i) +
     (gridArtifacts r c ch (edgeMap B r c f g) 1).2)

/-- Average-SSIM contributions of one scale (lines 440-444). -/
def avgContrib (r c ch scale : ℕ) (sm : Img) : ℚ × ℚ :=
  (∑ i ∈ Finset.range ch,
      (if 0 < i then chroma_weight else 1) * planeMean r c (plane sm i) * scale_weights i scale,
   ∑ i ∈ Finset.range ch, (if 0 < i then chroma_weight else 1) * scale_weights i scale)

/-- All in-domain values of a plane as a list (row major). -/
def planeVals (r c : ℕ) (p : Plane) : List ℚ :=
  (List.range r).flatMap fun y => (List.range c).map fun x => p y x

/-- Minimum of a list of values (`cv::minMaxLoc`); 0 for an empty list, which
the program never queries. -/
def listMin : List ℚ → ℚ
  | [] => 0
  | v :: vs => vs.foldl min v

/-- Target size of an OpenCV `resize` by factor 0.25: `cvRound(n/4)`, rounding
ties to even. -/
def quarterDim (n : ℕ) : ℕ :=
  match n % 4 with
  | 0 => n / 4
  | 1 => n / 4
  | 2 => if (n / 4) % 2 = 0 then n / 4 else n / 4 + 1
  | _ => n / 4 + 1

/-- Target size of an OpenCV `resize` by factor 0.5: `cvRound(n/2)`, rounding
ties to even. -/
def halfDim (n : ℕ) : ℕ :=
  if n % 2 = 0 then n / 2 else if (n / 2) % 2 = 0 then n / 2 else n / 2 + 1

/-- Worst-block contributions of one scale (lines 446-456): downsample the
SSIM map by 0.25 area-average, take the per-channel minimum, weight by
`min_weight[i] * mscale_weights[i][scale]`. -/
def minContrib (RQ : ImgOp) (r c ch scale : ℕ) (sm : Img) : ℚ × ℚ :=
  (∑ i ∈ Finset.range ch,
      min_weight i *
        listMin (planeVals (quarterDim r) (quarterDim c) (plane (applyOp RQ r c sm) i)) *
        mscale_weights i scale,
   ∑ i ∈ Finset.range ch, min_weight i * mscale_weights i scale)

/-- Everything one iteration of the scale loop adds to (score, score_max):
the scale-0-only edge block and grid detection (on the edge map and on the
SSIM map), then the average-SSIM and worst-block contributions. -/
def iterContrib (B RQ : ImgOp) (r c ch scale : ℕ) (f g : Img) : ℚ × ℚ :=
  (if scale = 0 then
      edgeContribs B r c ch f g + gridArtifacts r c ch (ssimMap B r c f g) 0
    else 0) +
    avgContrib r c ch scale (ssimMap B r c f g) +
    minContrib RQ r c ch scale (ssimMap B r c f g)

/-- Accumulator state of the scale loop: the two running sums of line 336
plus a ghost counter of executed iterations. -/
structure Acc where
  score : ℚ
  scoreMax : ℚ
  iters : ℕ

/-- The scale loop (lines 338-457): up to 6 iterations, breaking at the top
when either current dimension has dropped below 8, and halving both buffers by
the 0.5 area-average resize at the end of each iteration. -/
def loopScales (B RH RQ : ImgOp) (ch : ℕ) :
    ℕ → ℕ → ℕ → ℕ → Img → Img → Acc → Acc
  | 0, _, _, _, _, _, acc => acc
  | fuel + 1, scale, r, c, f, g, acc =>
    if c < 8 ∨ r < 8 then acc
    else
      loopScales B RH RQ ch fuel (scale + 1) (halfDim r) (halfDim c)
        (applyOp RH r c f) (applyOp RH r c g)
        ⟨acc.score + (iterContrib B RQ r c ch scale f g).1,
         acc.scoreMax + (iterContrib B RQ r c ch scale f g).2,
         acc.iters + 1⟩

/-- Run the whole scale loop from scale 0 with zeroed accumulators. -/
def runCore (B RH RQ : ImgOp) (r c ch : ℕ) (f g : Img) : Acc :=
  loopScales B RH RQ ch 6 0 r c f g ⟨0, 0, 0⟩

/-- Final clamping (lines 459-461): floor negatives to 0, then cap above 1. -/
def clampScore (q : ℚ) : ℚ :=
  let q1 := if q < 0 then 0 else q
  if q1 > 1 then 1 else q1

/-- The program's final score: `score_max / score - 1`, clamped. -/
def finalScore (B RH RQ : ImgOp) (r c ch : ℕ) (f g : Img) : ℚ :=
  clampScore
    ((runCore B RH RQ r c ch f g).scoreMax / (runCore B RH RQ r c ch f g).score - 1)

/-- Alpha blending of one 8-bit sample against the mid-gray background
(lines 287-289): `(alpha*v + (255-alpha)*128) / 255` in truncating integer
arithmetic. -/
def alphaBlend (a v : ℕ) : ℕ := (a * v + (255 - a) * 128) / 255

/-- The `nChan == 4` pre-processing step (lines 283-297): the three color
channels of each pixel are blended against mid-gray by the pixel's own alpha,
the alpha channel itself is not written. -/
def blendImage (px : ℕ → ℕ → ℕ → ℕ) : ℕ → ℕ → ℕ → ℕ := fun y x c =>
  if c < 3 then alphaBlend (px y x 3) (px y x c) else px y x c

/-- The Lab conversion stage (lines 319-326), applied in place to the first
three channels, alpha passing through.  The `rgb2lab` map itself involves cube
roots and is kept abstract. -/
def labStage (lab : ℚ → ℚ → ℚ → ℕ → ℚ) (img : Img) : Img := fun y x c =>
  if c < 3 then lab (img y x 0) (img y x 1) (img y x 2) c else img y x c

/-- The pixel normalizer (lines 283-330): alpha pre-blend when `nChan = 4`,
then for `nChan > 1` the per-sample sRGB-to-linear lookup `gam` followed (for
3- and 4-channel images) by the Lab stage; for `nChan = 1` each output value
is exactly the 8-bit sample divided by 255.  The gamma curve `gam` (the 256
entry LUT built from `pow ((c+0.055)/1.055) 2.4`) is abstract. -/
def normalizeImg (gam : ℕ → ℚ) (lab : ℚ → ℚ → ℚ → ℕ → ℚ) (n : ℕ)
    (px : ℕ → ℕ → ℕ → ℕ) : Img :=
  let pre := if n = 4 then blendImage px else px
  let linear : Img := if 1 < n then fun y x c => gam (pre y x c) else fun _ _ _ => 0
  if n = 3 ∨ n = 4 then labStage lab linear
  else if n = 1 then fun y x _ => (px y x 0 : ℚ) / 255
  else linear

/-- A decoded raster: dimensions, channel count and 8-bit samples. -/
structure RawImage where
  rows : ℕ
  cols : ℕ
  ch : ℕ
  px : ℕ → ℕ → ℕ → ℕ

/-- The error taxonomy of the validation code (lines 250-278 and 331-334). -/
inductive SsimError where
  | dimensionMismatch
  | imageTooSmall
  | channelMismatch
  | unsupportedChannelCount
deriving DecidableEq

/-- The channel count after the 3-to-4 promotion block (lines 265-280): the
program reads it back from the first image, which was promoted to 4 channels
exactly when the counts differed and it had 3. -/
def finalChannels (c1 c2 : ℕ) : ℕ := if c1 ≠ c2 ∧ c1 = 3 then 4 else c1

/-- `cvtColor(..., COLOR_RGB2RGBA)` promotion: pad a fully opaque alpha
channel when this 3-channel image meets a 4-channel partner. -/
def promote (n : ℕ) (im : RawImage) : ℕ → ℕ → ℕ → ℕ :=
  if im.ch = 3 ∧ n = 4 then fun y x c => if c = 3 then 255 else im.px y x c
  else im.px

/-- The whole program on two decoded rasters: the validation sequence of
`main` followed by normalization and the scoring core.  Exactly one error is
produced, or exactly one score. -/
def runProgram (gam : ℕ → ℚ) (lab : ℚ → ℚ → ℚ → ℕ → ℚ) (B RH RQ : ImgOp)
    (im1 im2 : RawImage) : Except SsimError ℚ :=
  if im1.cols ≠ im2.cols ∨ im1.rows ≠ im2.rows then .error .dimensionMismatch
  else if im1.cols < 8 ∨ im1.rows < 8 then .error .imageTooSmall
  else if im1.ch ≠ im2.ch ∧ (im1.ch < 3 ∨ im2.ch < 3) then .error .channelMismatch
  else
    let n := finalChannels im1.ch im2.ch
    if n = 3 ∨ n = 4 ∨ n = 1 then
      .ok (finalScore B RH RQ im1.rows im1.cols n
        (normalizeImg gam lab n (promote n im1))
        (normalizeImg gam lab n (promote n im2)))
    else .error .unsupportedChannelCount

/-- Following the words of the specification ("take the value at rank
`⌈rows/50⌉`"): the grid detector picking the element at rank `⌈n/50⌉` of the
ascending multiset, with rank counted from 1 at the worst (smallest) end.
Defined only to be compared against the program's `pickWorst`. -/
def pickWorstCeil (l : List ℚ) (n : ℕ) : ℚ :=
  (List.insertionSort (· ≤ ·) l).getD ((n + 49) / 50 - 1) 0

/-- Following the words of the specification: `grid_artifacts` with the
ceiling-rank selection of `pickWorstCeil` in place of the program's
`n / 50` position.  Defined only to be compared against `gridArtifacts`. -/
def gridArtifactsCeil (r c ch : ℕ) (m : Img) (variant : ℕ) : ℚ × ℚ :=
  ((∑ i ∈ Finset.range ch, worst_grid_weight variant i * pickWorstCeil (rowMeans r c m i) r) +
     ∑ i ∈ Finset.range ch, worst_grid_weight variant i * pickWorstCeil (colMeans r c m i) c,
   (∑ i ∈ Finset.range ch, worst_grid_weight variant i) +
     ∑ i ∈ Finset.range ch, worst_grid_weight variant i)

/-- The blur/resize property the scoring proofs use: a per-plane operator
whose output values are convex combinations of input values satisfies this
Cauchy-Schwarz inequality pointwise (variance of the window is nonnegative).
The identity operator satisfies it trivially. -/
def JensenOp (B : ImgOp) : Prop :=
  ∀ (r c : ℕ) (p : Plane) (y x : ℕ), (B r c p y x) ^ 2 ≤ B r c (fun u v => p u v ^ 2) y x

/-- The resize property the scoring proofs use: an area-average of the
constant-one plane is the constant-one plane. -/
def PreservesOnes (R : ImgOp) : Prop :=
  ∀ r c : ℕ, R r c (fun _ _ => 1) = fun _ _ => 1

/-- Identity per-plane operator, a degenerate instance of the blur/resize
primitives used to witness the theorems. -/
def idOp : ImgOp := fun _ _ p => p

/-- The all-zero image, used as a witness fixture. -/
def zeroImg : Img := fun _ _ _ => 0

/-- A flat mid-gray 8×8 single-channel raster, used as a witness fixture. -/
def flatRaw : RawImage := ⟨8, 8, 1, fun _ _ _ => 128⟩

/-- Counterexample fixture for the grid detector: a 50-row, 1-column map
whose row `y` has constant value `y`. -/
def rampMap : Img := fun y _ _ => (y : ℚ)

/-- The count of scales the loop executes, as a function of the initial
dimensions alone (mirrors the loop guard and the 0.5 resize). -/
def numScalesAux : ℕ → ℕ → ℕ → ℕ
  | 0, _, _ => 0
  | fuel + 1, r, c =>
    if c < 8 ∨ r < 8 then 0 else numScalesAux fuel (halfDim r) (halfDim c) + 1

/-- Number of executed scales for a given initial size. -/
def numScales (r c : ℕ) : ℕ := numScalesAux 6 r c

/-- What one scale adds to `score_max`: a pure function of the channel count
and the scale index. -/
def scaleMaxDelta (ch scale : ℕ) : ℚ :=
  (if scale = 0 then
      (∑ i ∈ Finset.range ch, extra_edges_weight i) +
        ((∑ i ∈ Finset.range ch, worst_grid_weight 1 i) +
          ∑ i ∈ Finset.range ch, worst_grid_weight 1 i) +
        ((∑ i ∈ Finset.range ch, worst_grid_weight 0 i) +
          ∑ i ∈ Finset.range ch, worst_grid_weight 0 i)
    else 0) +
    (∑ i ∈ Finset.range ch, (if 0 < i then chroma_weight else 1) * scale_weights i scale) +
    ∑ i ∈ Finset.range ch, min_weight i * mscale_weights i scale

/-- The final `score_max`: a function of the channel count and the number of
executed scales only. -/
def scoreMaxSpec (ch n : ℕ) : ℚ := ∑ k ∈ Finset.range n, scaleMaxDelta ch k

theorem getD_nonneg : ∀ (l : List ℚ), (∀ q ∈ l, 0 ≤ q) → ∀ n : ℕ, 0 ≤ l.getD n 0
  | [], _, _ => le_refl 0
  | q :: l, h, 0 => h q (List.mem_cons_self q l)
  | _ :: l, h, n + 1 => getD_nonneg l (fun q hq => h q (List.mem_cons_of_mem _ hq)) n

theorem tableD_nonneg :
    ∀ (t : List (List ℚ)), (∀ l ∈ t, ∀ q ∈ l, 0 ≤ q) → ∀ i s : ℕ, 0 ≤ (t.getD i []).getD s 0
  | [], _, _, _ => by simp
  | l :: _, h, 0, s => getD_nonneg l (h l (List.mem_cons_self l _)) s
  | _ :: t, h, i + 1, s =>
    tableD_nonneg t (fun l' hl' q hq => h l' (List.mem_cons_of_mem _ hl') q hq) i s

theorem getD_eq_of_all_eq :
    ∀ (l : List ℚ) (v : ℚ), (∀ q ∈ l, q = v) → ∀ n : ℕ, n < l.length → l.getD n 0 = v
  | [], _, _, n, hn => absurd hn (by simp)
  | q :: l, v, h, 0, _ => h q (List.mem_cons_self q l)
  | _ :: l, v, h, n + 1, hn =>
    getD_eq_of_all_eq l v (fun q hq => h q (List.mem_cons_of_mem _ hq)) n
      (by simpa using Nat.lt_of_succ_lt_succ hn)

theorem scale_weights_nonneg (i s : ℕ) : 0 ≤ scale_weights i s :=
  tableD_nonneg scale_weights_table (by norm_num [scale_weights_table]) i s

theorem mscale_weights_nonneg (i s : ℕ) : 0 ≤ mscale_weights i s :=
  tableD_nonneg mscale_weights_table (by norm_num [mscale_weights_table]) i s

theorem min_weight_nonneg (i : ℕ) : 0 ≤ min_weight i :=
  getD_nonneg min_weight_table (by norm_num [min_weight_table]) i

theorem extra_edges_weight_nonneg (i : ℕ) : 0 ≤ extra_edges_weight i :=
  getD_nonneg extra_edges_weight_table (by norm_num [extra_edges_weight_table]) i

theorem worst_grid_weight_nonneg (v i : ℕ) : 0 ≤ worst_grid_weight v i :=
  tableD_nonneg worst_grid_weight_table (by norm_num [worst_grid_weight_table]) v i

theorem chroma_weight_nonneg : 0 ≤ chroma_weight := by norm_num [chroma_weight]

theorem clampScore_eq (q : ℚ) :
    clampScore q = if q < 0 then 0 else if 1 < q then 1 else q := by
  simp only [clampScore, gt_iff_lt]
  split_ifs <;> first | rfl | linarith

theorem clampScore_bounds (q : ℚ) : 0 ≤ clampScore q ∧ clampScore q ≤ 1 := by
  simp only [clampScore, gt_iff_lt]
  split_ifs <;> constructor <;> linarith

theorem planeMean_const (r c : ℕ) (p : Plane) (v : ℚ) (hp : ∀ y x, p y x = v)
    (hr : r ≠ 0) (hc : c ≠ 0) : planeMean r c p = v := by
  unfold planeMean
  have hin : ∀ y ∈ Finset.range r, ∑ x ∈ Finset.range c, p y x = (c : ℚ) * v := by
    intro y _
    rw [Finset.sum_congr rfl fun x _ => hp y x, Finset.sum_const, Finset.card_range,
      nsmul_eq_mul]
  rw [Finset.sum_congr rfl hin, Finset.sum_const, Finset.card_range, nsmul_eq_mul]
  have hr' : (r : ℚ) ≠ 0 := Nat.cast_ne_zero.mpr hr
  have hc' : (c : ℚ) ≠ 0 := Nat.cast_ne_zero.mpr hc
  field_simp
  ring

theorem rowMean_const (c : ℕ) (m : Img) (y i : ℕ) (v : ℚ) (hm : ∀ y x i, m y x i = v)
    (hc : c ≠ 0) : rowMean c m y i = v := by
  unfold rowMean
  rw [Finset.sum_congr rfl fun x _ => hm y x i, Finset.sum_const, Finset.card_range,
    nsmul_eq_mul, mul_comm, mul_div_assoc, div_self (Nat.cast_ne_zero.mpr hc), mul_one]

theorem colMean_const (r : ℕ) (m : Img) (x i : ℕ) (v : ℚ) (hm : ∀ y x i, m y x i = v)
    (hr : r ≠ 0) : colMean r m x i = v := by
  unfold colMean
  rw [Finset.sum_congr rfl fun y _ => hm y x i, Finset.sum_const, Finset.card_range,
    nsmul_eq_mul, mul_comm, mul_div_assoc, div_self (Nat.cast_ne_zero.mpr hr), mul_one]

theorem pickWorst_const (l : List ℚ) (v : ℚ) (n : ℕ) (h : ∀ q ∈ l, q = v)
    (hn : n / 50 < l.length) : pickWorst l n = v := by
  unfold pickWorst
  apply getD_eq_of_all_eq
  · intro q hq
    exact h q ((List.perm_insertionSort (· ≤ ·) l).mem_iff.mp hq)
  · rw [(List.perm_insertionSort (· ≤ ·) l).length_eq]
    exact hn

theorem C1_pos : (0 : ℚ) < C1 := by norm_num [C1]

theorem C2_pos : (0 : ℚ) < C2 := by norm_num [C2]

theorem ssimMap_self (B : ImgOp) (hB : JensenOp B) (r c : ℕ) (f : Img) (y x ch : ℕ) :
    ssimMap B r c f f y x ch = 1 := by
  have hplane : plane (mulImg f f) ch = plane (sqImg f) ch := by
    funext u v
    simp [plane, mulImg, sqImg, sq]
  have h12 : applyOp B r c (mulImg f f) y x ch = applyOp B r c (sqImg f) y x ch := by
    simp only [applyOp, hplane]
  have hJ : applyOp B r c f y x ch ^ 2 ≤ applyOp B r c (sqImg f) y x ch :=
    hB r c (plane f ch) y x
  simp only [ssimMap, h12]
  set mu := applyOp B r c f y x ch with hmu
  set S := applyOp B r c (sqImg f) y x ch with hS
  have hden : 0 < (mu ^ 2 + mu ^ 2 + C1) * (S + S - (mu ^ 2 + mu ^ 2) + C2) := by
    have h1 : 0 < mu ^ 2 + mu ^ 2 + C1 := by nlinarith [sq_nonneg mu, C1_pos]
    have h2 : 0 < S + S - (mu ^ 2 + mu ^ 2) + C2 := by nlinarith [hJ, C2_pos]
    exact mul_pos h1 h2
  have hnum : (2 * (mu * mu) + C1) * (2 * S - 2 * (mu * mu) + C2) =
      (mu ^ 2 + mu ^ 2 + C1) * (S + S - (mu ^ 2 + mu ^ 2) + C2) := by ring
  rw [hnum]
  exact div_self (ne_of_gt hden)

theorem rowMeans_all_const {r c : ℕ} {m : Img} {i : ℕ} {v : ℚ}
    (hm : ∀ y x i, m y x i = v) (hc : c ≠ 0) : ∀ q ∈ rowMeans r c m i, q = v := by
  intro q hq
  rcases List.mem_map.mp hq with ⟨y, _, rfl⟩
  exact rowMean_const c m y i v hm hc

theorem colMeans_all_const {r c : ℕ} {m : Img} {i : ℕ} {v : ℚ}
    (hm : ∀ y x i, m y x i = v) (hr : r ≠ 0) : ∀ q ∈ colMeans r c m i, q = v := by
  intro q hq
  rcases List.mem_map.mp hq with ⟨x, _, rfl⟩
  exact colMean_const r m x i v hm hr

theorem gridArtifacts_const_fst (r c ch : ℕ) (m : Img) (variant : ℕ)
    (hm : ∀ y x i, m y x i = 1) (hr : r ≠ 0) (hc : c ≠ 0) :
    (gridArtifacts r c ch m variant).1 = (gridArtifacts r c ch m variant).2 := by
  unfold gridArtifacts
  dsimp only
  have hrow : ∀ i : ℕ, pickWorst (rowMeans r c m i) r = 1 := fun i =>
    pickWorst_const _ 1 r (rowMeans_all_const hm hc) (by
      rw [rowMeans, List.length_map, List.length_range]
      exact Nat.div_lt_self (Nat.pos_of_ne_zero hr) (by norm_num))
  have hcol : ∀ i : ℕ, pickWorst (colMeans r c m i) c = 1 := fun i =>
    pickWorst_const _ 1 c (colMeans_all_const hm hr) (by
      rw [colMeans, List.length_map, List.length_range]
      exact Nat.div_lt_self (Nat.pos_of_ne_zero hc) (by norm_num))
  have h1 : (∑ i ∈ Finset.range ch, worst_grid_weight variant i * pickWorst (rowMeans r c m i) r)
      = ∑ i ∈ Finset.range ch, worst_grid_weight variant i :=
    Finset.sum_congr rfl fun i _ => by rw [hrow i, mul_one]
  have h2 : (∑ i ∈ Finset.range ch, worst_grid_weight variant i * pickWorst (colMeans r c m i) c)
      = ∑ i ∈ Finset.range ch, worst_grid_weight variant i :=
    Finset.sum_congr rfl fun i _ => by rw [hcol i, mul_one]
  rw [h1, h2]

theorem foldl_min_const : ∀ (l : List ℚ) (v : ℚ), (∀ q ∈ l, q = v) → l.foldl min v = v
  | [], _, _ => rfl
  | q :: l, v, h => by
    rw [List.foldl_cons, h q (List.mem_cons_self q l), min_self]
    exact foldl_min_const l v fun q' hq' => h q' (List.mem_cons_of_mem _ hq')

theorem listMin_const (l : List ℚ) (v : ℚ) (h : ∀ q ∈ l, q = v) (hne : l ≠ []) :
    listMin l = v := by
  cases l with
  | nil => exact absurd rfl hne
  | cons q l =>
    show List.foldl min q l = v
    rw [h q (List.mem_cons_self q l)]
    exact foldl_min_const l v fun q' hq' => h q' (List.mem_cons_of_mem _ hq')

theorem planeVals_all {r c : ℕ} {p : Plane} {v : ℚ} (hp : ∀ y x, p y x = v) :
    ∀ q ∈ planeVals r c p, q = v := by
  intro q hq
  rcases List.mem_flatMap.mp hq with ⟨y, _, hy⟩
  rcases List.mem_map.mp hy with ⟨x, _, rfl⟩
  exact hp y x

theorem planeVals_ne_nil (r c : ℕ) (p : Plane) (hr : 1 ≤ r) (hc : 1 ≤ c) :
    planeVals r c p ≠ [] :=
  List.ne_nil_of_mem (List.mem_flatMap.mpr ⟨0, List.mem_range.mpr hr,
    List.mem_map.mpr ⟨0, List.mem_range.mpr hc, rfl⟩⟩)

theorem quarterDim_pos (n : ℕ) (hn : 8 ≤ n) : 1 ≤ quarterDim n := by
  unfold quarterDim
  split <;> first | omega | (split_ifs <;> omega)

theorem avgContrib_const (r c ch scale : ℕ) (sm : Img) (hm : ∀ y x i, sm y x i = 1)
    (hr : r ≠ 0) (hc : c ≠ 0) :
    (avgContrib r c ch scale sm).1 = (avgContrib r c ch scale sm).2 := by
  unfold avgContrib
  dsimp only
  apply Finset.sum_congr rfl
  intro i _
  rw [planeMean_const r c (plane sm i) 1 (fun y x => hm y x i) hr hc, mul_one]

theorem minContrib_const (RQ : ImgOp) (hRQ : PreservesOnes RQ) (r c ch scale : ℕ)
    (sm : Img) (hm : ∀ y x i, sm y x i = 1) (hr : 8 ≤ r) (hc : 8 ≤ c) :
    (minContrib RQ r c ch scale sm).1 = (minContrib RQ r c ch scale sm).2 := by
  unfold minContrib
  dsimp only
  apply Finset.sum_congr rfl
  intro i _
  have hplane : plane sm i = fun _ _ => (1 : ℚ) :=
    funext fun y => funext fun x => hm y x i
  have hvals : ∀ y x : ℕ, plane (applyOp RQ r c sm) i y x = 1 := by
    intro y x
    show RQ r c (plane sm i) y x = 1
    rw [hplane, hRQ r c]
  rw [listMin_const _ 1 (planeVals_all hvals)
    (planeVals_ne_nil _ _ _ (quarterDim_pos r hr) (quarterDim_pos c hc)), mul_one]

theorem edgeMap_self (B : ImgOp) (r c : ℕ) (f : Img) :
    ∀ y x i : ℕ, edgeMap B r c f f y x i = 1 := by
  intro y x i
  unfold edgeMap edgeDiff
  simp

theorem edgeContribs_self (B : ImgOp) (r c ch : ℕ) (f : Img) (hr : r ≠ 0) (hc : c ≠ 0) :
    (edgeContribs B r c ch f f).1 = (edgeContribs B r c ch f f).2 := by
  unfold edgeContribs
  dsimp only
  have h1 : (∑ i ∈ Finset.range ch,
        extra_edges_weight i * planeMean r c (plane (edgeMap B r c f f) i))
      = ∑ i ∈ Finset.range ch, extra_edges_weight i :=
    Finset.sum_congr rfl fun i _ => by
      rw [planeMean_const r c (plane (edgeMap B r c f f) i) 1
        (fun y x => edgeMap_self B r c f y x i) hr hc, mul_one]
  rw [gridArtifacts_const_fst r c ch _ 1 (edgeMap_self B r c f) hr hc, h1]

theorem iterContrib_self (B RQ : ImgOp) (hB : JensenOp B) (hRQ : PreservesOnes RQ)
    (r c ch scale : ℕ) (f : Img) (hr : 8 ≤ r) (hc : 8 ≤ c) :
    (iterContrib B RQ r c ch scale f f).1 = (iterContrib B RQ r c ch scale f f).2 := by
  have hr0 : r ≠ 0 := by omega
  have hc0 : c ≠ 0 := by omega
  have hsm : ∀ y x i : ℕ, ssimMap B r c f f y x i = 1 := fun y x i =>
    ssimMap_self B hB r c f y x i
  have hif : (if scale = 0 then
        edgeContribs B r c ch f f + gridArtifacts r c ch (ssimMap B r c f f) 0
      else 0).1 =
      (if scale = 0 then
        edgeContribs B r c ch f f + gridArtifacts r c ch (ssimMap B r c f f) 0
      else 0).2 := by
    by_cases h0 : scale = 0
    · rw [if_pos h0, Prod.fst_add, Prod.snd_add,
        edgeContribs_self B r c ch f hr0 hc0,
        gridArtifacts_const_fst r c ch _ 0 hsm hr0 hc0]
    · rw [if_neg h0]
      rfl
  unfold iterContrib
  rw [Prod.fst_add, Prod.fst_add, Prod.snd_add, Prod.snd_add, hif,
    avgContrib_const r c ch scale _ hsm hr0 hc0,
    minContrib_const RQ hRQ r c ch scale _ hsm hr hc]

theorem iterContrib_snd (B RQ : ImgOp) (r c ch scale : ℕ) (f g : Img) :
    (iterContrib B RQ r c ch scale f g).2 = scaleMaxDelta ch scale := by
  by_cases h0 : scale = 0 <;>
    simp [iterContrib, scaleMaxDelta, edgeContribs, gridArtifacts, avgContrib, minContrib,
      Prod.snd_add, h0]

theorem loopScales_self (B RH RQ : ImgOp) (hB : JensenOp B) (hRQ : PreservesOnes RQ)
    (ch : ℕ) :
    ∀ (fuel scale r c : ℕ) (f : Img) (acc : Acc),
      (loopScales B RH RQ ch fuel scale r c f f acc).score -
          (loopScales B RH RQ ch fuel scale r c f f acc).scoreMax =
        acc.score - acc.scoreMax
  | 0, _, _, _, _, _ => rfl
  | fuel + 1, scale, r, c, f, acc => by
    rw [loopScales]
    by_cases hg : c < 8 ∨ r < 8
    · rw [if_pos hg]
    · rw [if_neg hg,
        loopScales_self B RH RQ hB hRQ ch fuel (scale + 1) (halfDim r) (halfDim c)
          (applyOp RH r c f) _]
      dsimp only
      rw [iterContrib_self B RQ hB hRQ r c ch scale f (by omega) (by omega)]
      ring

theorem loopScales_scoreMax (B RH RQ : ImgOp) (ch : ℕ) :
    ∀ (fuel scale r c : ℕ) (f g : Img) (acc : Acc),
      (loopScales B RH RQ ch fuel scale r c f g acc).scoreMax =
        acc.scoreMax + ∑ k ∈ Finset.range (numScalesAux fuel r c), scaleMaxDelta ch (scale + k)
  | 0, _, _, _, _, _, acc => by simp [loopScales, numScalesAux]
  | fuel + 1, scale, r, c, f, g, acc => by
    rw [loopScales, numScalesAux]
    by_cases hg : c < 8 ∨ r < 8
    · rw [if_pos hg, if_pos hg]
      simp
    · rw [if_neg hg, if_neg hg,
        loopScales_scoreMax B RH RQ ch fuel (scale + 1) (halfDim r) (halfDim c) _ _ _]
      dsimp only
      rw [iterContrib_snd B RQ r c ch scale f g, Finset.sum_range_succ']
      have hidx : ∀ k : ℕ, scaleMaxDelta ch (scale + (k + 1)) = scaleMaxDelta ch (scale + 1 + k) := by
        intro k
        congr 1
        omega
      rw [Finset.sum_congr rfl fun k _ => hidx k]
      simp only [Nat.add_zero]
      ring

theorem loopScales_iters (B RH RQ : ImgOp) (ch : ℕ) :
    ∀ (fuel scale r c : ℕ) (f g : Img) (acc : Acc),
      (loopScales B RH RQ ch fuel scale r c f g acc).iters =
        acc.iters + numScalesAux fuel r c
  | 0, _, _, _, _, _, acc => by simp [loopScales, numScalesAux]
  | fuel + 1, scale, r, c, f, g, acc => by
    rw [loopScales, numScalesAux]
    by_cases hg : c < 8 ∨ r < 8
    · rw [if_pos hg, if_pos hg]
      simp
    · rw [if_neg hg, if_neg hg,
        loopScales_iters B RH RQ ch fuel (scale + 1) (halfDim r) (halfDim c) _ _ _]
      dsimp only
      omega

theorem runCore_scoreMax (B RH RQ : ImgOp) (r c ch : ℕ) (f g : Img) :
    (runCore B RH RQ r c ch f g).scoreMax = scoreMaxSpec ch (numScales r c) := by
  unfold runCore scoreMaxSpec numScales
  rw [loopScales_scoreMax]
  simp

theorem scaleMaxDelta_nonneg (ch scale : ℕ) : 0 ≤ scaleMaxDelta ch scale := by
  unfold scaleMaxDelta
  have h1 : (0 : ℚ) ≤ ∑ i ∈ Finset.range ch, extra_edges_weight i :=
    Finset.sum_nonneg fun i _ => extra_edges_weight_nonneg i
  have hg0 : (0 : ℚ) ≤ ∑ i ∈ Finset.range ch, worst_grid_weight 0 i :=
    Finset.sum_nonneg fun i _ => worst_grid_weight_nonneg 0 i
  have hg1 : (0 : ℚ) ≤ ∑ i ∈ Finset.range ch, worst_grid_weight 1 i :=
    Finset.sum_nonneg fun i _ => worst_grid_weight_nonneg 1 i
  have ha : (0 : ℚ) ≤ ∑ i ∈ Finset.range ch,
      (if 0 < i then chroma_weight else 1) * scale_weights i scale :=
    Finset.sum_nonneg fun i _ => mul_nonneg
      (by split_ifs; exacts [chroma_weight_nonneg, zero_le_one])
      (scale_weights_nonneg i scale)
  have hm : (0 : ℚ) ≤ ∑ i ∈ Finset.range ch, min_weight i * mscale_weights i scale :=
    Finset.sum_nonneg fun i _ => mul_nonneg (min_weight_nonneg i)
      (mscale_weights_nonneg i scale)
  split_ifs <;> linarith

theorem scaleMaxDelta_zero_ge (ch : ℕ) (hch : 1 ≤ ch) :
    (3 / 2 : ℚ) ≤ scaleMaxDelta ch 0 := by
  unfold scaleMaxDelta
  rw [if_pos rfl]
  have he : (3 / 2 : ℚ) ≤ ∑ i ∈ Finset.range ch, extra_edges_weight i := by
    have hs := Finset.single_le_sum (f := fun i => extra_edges_weight i)
      (fun i _ => extra_edges_weight_nonneg i) (Finset.mem_range.mpr hch)
    have h0 : extra_edges_weight 0 = 3 / 2 := by
      norm_num [extra_edges_weight, extra_edges_weight_table]
    linarith
  have hg0 : (0 : ℚ) ≤ ∑ i ∈ Finset.range ch, worst_grid_weight 0 i :=
    Finset.sum_nonneg fun i _ => worst_grid_weight_nonneg 0 i
  have hg1 : (0 : ℚ) ≤ ∑ i ∈ Finset.range ch, worst_grid_weight 1 i :=
    Finset.sum_nonneg fun i _ => worst_grid_weight_nonneg 1 i
  have ha : (0 : ℚ) ≤ ∑ i ∈ Finset.range ch,
      (if 0 < i then chroma_weight else 1) * scale_weights i 0 :=
    Finset.sum_nonneg fun i _ => mul_nonneg
      (by split_ifs; exacts [chroma_weight_nonneg, zero_le_one])
      (scale_weights_nonneg i 0)
  have hm : (0 : ℚ) ≤ ∑ i ∈ Finset.range ch, min_weight i * mscale_weights i 0 :=
    Finset.sum_nonneg fun i _ => mul_nonneg (min_weight_nonneg i)
      (mscale_weights_nonneg i 0)
  linarith

theorem scoreMaxSpec_pos (ch n : ℕ) (hch : 1 ≤ ch) (hn : 1 ≤ n) :
    0 < scoreMaxSpec ch n := by
  unfold scoreMaxSpec
  have h0 : (3 / 2 : ℚ) ≤ scaleMaxDelta ch 0 := scaleMaxDelta_zero_ge ch hch
  have hle := Finset.single_le_sum (f := fun k => scaleMaxDelta ch k)
    (fun k _ => scaleMaxDelta_nonneg ch k) (Finset.mem_range.mpr hn)
  linarith

theorem numScalesAux_le : ∀ fuel r c : ℕ, numScalesAux fuel r c ≤ fuel
  | 0, _, _ => le_refl 0
  | fuel + 1, r, c => by
    rw [numScalesAux]
    split_ifs
    · omega
    · have := numScalesAux_le fuel (halfDim r) (halfDim c)
      omega

theorem numScalesAux_pos (fuel r c : ℕ) (hf : 1 ≤ fuel) (hr : 8 ≤ r) (hc : 8 ≤ c) :
    1 ≤ numScalesAux fuel r c := by
  cases fuel with
  | zero => omega
  | succ n =>
    rw [numScalesAux, if_neg (by omega)]
    omega

theorem numScalesAux_dims : ∀ fuel r c k : ℕ, k < numScalesAux fuel r c →
    8 ≤ halfDim^[k] r ∧ 8 ≤ halfDim^[k] c
  | 0, _, _, _, h => absurd h (by simp [numScalesAux])
  | fuel + 1, r, c, k, h => by
    rw [numScalesAux] at h
    by_cases hg : c < 8 ∨ r < 8
    · rw [if_pos hg] at h
      omega
    · rw [if_neg hg] at h
      cases k with
      | zero =>
        simp only [Function.iterate_zero_apply]
        omega
      | succ k =>
        rw [Function.iterate_succ_apply, Function.iterate_succ_apply]
        exact numScalesAux_dims fuel (halfDim r) (halfDim c) k (by omega)

theorem finalScore_self (B RH RQ : ImgOp) (hB : JensenOp B) (hRQ : PreservesOnes RQ)
    (r c ch : ℕ) (f : Img) (hr : 8 ≤ r) (hc : 8 ≤ c) (hch : 1 ≤ ch) :
    finalScore B RH RQ r c ch f f = 0 := by
  have hsm : (runCore B RH RQ r c ch f f).scoreMax = scoreMaxSpec ch (numScales r c) :=
    runCore_scoreMax B RH RQ r c ch f f
  have hdiff : (runCore B RH RQ r c ch f f).score -
      (runCore B RH RQ r c ch f f).scoreMax = 0 := by
    have := loopScales_self B RH RQ hB hRQ ch 6 0 r c f ⟨0, 0, 0⟩
    simpa [runCore] using this
  have hs : (runCore B RH RQ r c ch f f).score = (runCore B RH RQ r c ch f f).scoreMax := by
    linarith
  have hpos : 0 < (runCore B RH RQ r c ch f f).scoreMax := by
    rw [hsm]
    exact scoreMaxSpec_pos ch (numScales r c) hch (numScalesAux_pos 6 r c (by omega) hr hc)
  unfold finalScore
  rw [hs, div_self (ne_of_gt hpos)]
  norm_num [clampScore]

theorem sort_coe (l : List ℚ) :
    Multiset.sort (· ≤ ·) (l : Multiset ℚ) = List.insertionSort (· ≤ ·) l :=
  List.eq_of_perm_of_sorted
    ((Multiset.coe_eq_coe.mp (Multiset.sort_eq (· ≤ ·) (l : Multiset ℚ))).trans
      (List.perm_insertionSort (· ≤ ·) l).symm)
    (Multiset.sort_sorted (· ≤ ·) _)
    (List.sorted_insertionSort (· ≤ ·) l)

/-- C1: for every valid input pair in which the two rasters are pixel-for-pixel
equal (here: the very same raster, with dimensions at least 8×8 and a supported
channel count), the program returns the score 0 exactly: every per-pixel SSIM
value is 1, the edge-difference map is 0 (so the remapped map is uniformly 1),
the grid-detector percentile values are 1, the accumulated score equals
`score_max`, and `score_max / score - 1 = 0`.  The blur and 0.25-resize
primitives are assumed to compute convex combinations of their input values,
which is all the proof uses of them. -/
theorem c1_identical_inputs_score_zero (gam : ℕ → ℚ) (lab : ℚ → ℚ → ℚ → ℕ → ℚ)
    (B RH RQ : ImgOp) (im : RawImage) (hB : JensenOp B) (hRQ : PreservesOnes RQ)
    (hr : 8 ≤ im.rows) (hc : 8 ≤ im.cols)
    (hch : im.ch = 1 ∨ im.ch = 3 ∨ im.ch = 4) :
    runProgram gam lab B RH RQ im im = .ok 0 := by
  have hfc : finalChannels im.ch im.ch = im.ch := by simp [finalChannels]
  simp only [runProgram]
  rw [if_neg (by simp), if_neg (by omega), if_neg (by simp), hfc, if_pos (by tauto)]
  exact congrArg Except.ok
    (finalScore_self B RH RQ hB hRQ im.rows im.cols im.ch _ hr hc
      (by rcases hch with h | h | h <;> omega))

theorem c1_identical_inputs_score_zero_witness :
    runProgram (fun _ => 0) (fun _ _ _ _ => 0) idOp idOp idOp flatRaw flatRaw =
      .ok 0 :=
  c1_identical_inputs_score_zero (fun _ => 0) (fun _ _ _ _ => 0) idOp idOp idOp flatRaw
    (fun _ _ _ _ _ => le_refl _) (fun _ _ => rfl) (by decide) (by decide) (Or.inl rfl)

/-- C2: the final score is `score_max / score - 1` with a negative result
floored to 0 and a result above 1 capped at 1, and consequently it always lies
in the closed interval from 0 to 1. -/
theorem c2_final_score_clamped_in_unit_interval (B RH RQ : ImgOp) (r c ch : ℕ)
    (f g : Img) :
    finalScore B RH RQ r c ch f g =
      (if (runCore B RH RQ r c ch f g).scoreMax / (runCore B RH RQ r c ch f g).score - 1 < 0
       then 0
       else if 1 < (runCore B RH RQ r c ch f g).scoreMax / (runCore B RH RQ r c ch f g).score - 1
       then 1
       else (runCore B RH RQ r c ch f g).scoreMax / (runCore B RH RQ r c ch f g).score - 1) ∧
    0 ≤ finalScore B RH RQ r c ch f g ∧ finalScore B RH RQ r c ch f g ≤ 1 :=
  ⟨clampScore_eq _, (clampScore_bounds _).1, (clampScore_bounds _).2⟩

/-- C3 counterexample: the claim reads the selected entry as the one at rank
`⌈rows/50⌉` of the ascending multiset (rank 1 being the smallest).  On a
50-row, 1-column map whose row `y` has constant value `y`, the program's
detector (0-based index `50 / 50 = 1`, the second smallest row mean) and the
claimed ceiling-rank selection (rank `⌈50/50⌉ = 1`, the smallest row mean)
accumulate different scores. -/
theorem c3_rank_ceil_counterexample :
    (gridArtifacts 50 1 1 rampMap 0).1 ≠ (gridArtifactsCeil 50 1 1 rampMap 0).1 := by
  have hlist : rowMeans 50 1 rampMap 0 = List.map (fun y : ℕ => (y : ℚ)) (List.range 50) := by
    unfold rowMeans
    apply List.map_congr_left
    intro y _
    simp [rowMean, rampMap]
  have hsorted : List.Sorted (· ≤ ·) (List.map (fun y : ℕ => (y : ℚ)) (List.range 50)) :=
    List.Pairwise.map _ (fun a b hab => by exact_mod_cast le_of_lt hab)
      (List.sorted_lt_range 50)
  have hsort : List.insertionSort (· ≤ ·) (List.map (fun y : ℕ => (y : ℚ)) (List.range 50)) =
      List.map (fun y : ℕ => (y : ℚ)) (List.range 50) := hsorted.insertionSort_eq
  have hgetD : ∀ i : ℕ, i < 50 → ((List.map (fun y : ℕ => (y : ℚ)) (List.range 50)).getD i 0) = i := by
    intro i hi
    rw [List.getD_eq_getElem _ _ (by simpa using hi)]
    simp
  have hpickL : pickWorst (rowMeans 50 1 rampMap 0) 50 = 1 := by
    simp only [pickWorst, hlist, hsort]
    simp
  have hpickR : pickWorstCeil (rowMeans 50 1 rampMap 0) 50 = 0 := by
    simp only [pickWorstCeil, hlist, hsort]
    simp
  have hcols : pickWorstCeil (colMeans 50 1 rampMap 0) 1 =
      pickWorst (colMeans 50 1 rampMap 0) 1 := by
    norm_num [pickWorst, pickWorstCeil]
  have hw : worst_grid_weight 0 0 = 1 := by
    norm_num [worst_grid_weight, worst_grid_weight_table, List.getD_cons_zero]
  unfold gridArtifacts gridArtifactsCeil
  dsimp only
  rw [Finset.sum_range_one, Finset.sum_range_one, Finset.sum_range_one,
    Finset.sum_range_one, hpickL, hpickR, hcols, hw]
  intro h
  linarith

/-- C3 (amended): in the grid detector, for each channel the per-row means
are collected into an ascending multiset and the selected "worst row" value is
the element at 0-based position `⌊rows/50⌋` of that multiset (that is, the
`⌊rows/50⌋` worst entries are skipped and the next one is taken), weighted by
`worst_grid_weight[variant][channel]`; symmetrically for columns with
`⌊cols/50⌋`.  The claim's rank `⌈rows/50⌉` is wrong exactly when 50 divides
the count. -/
theorem c3_grid_percentile_floor (r c ch variant : ℕ) (m : Img) :
    gridArtifacts r c ch m variant =
      ((∑ i ∈ Finset.range ch, worst_grid_weight variant i *
          (Multiset.sort (· ≤ ·) (↑(rowMeans r c m i) : Multiset ℚ)).getD (r / 50) 0) +
         ∑ i ∈ Finset.range ch, worst_grid_weight variant i *
          (Multiset.sort (· ≤ ·) (↑(colMeans r c m i) : Multiset ℚ)).getD (c / 50) 0,
       (∑ i ∈ Finset.range ch, worst_grid_weight variant i) +
         ∑ i ∈ Finset.range ch, worst_grid_weight variant i) := by
  simp only [gridArtifacts, pickWorst, sort_coe]

/-- C4: at every scale the per-pixel per-channel SSIM map is the quotient of
the numerator `(2 mu1 mu2 + 0.0001) * (2 blur(img1 img2) - 2 mu1 mu2 + 0.0004)`
and the denominator
`(mu1^2 + mu2^2 + 0.0001) * (blur(img1^2) + blur(img2^2) - (mu1^2 + mu2^2) + 0.0004)`,
where `mu1`, `mu2` are the blurred means of the two buffers (the blur being the
abstract 11×11 sigma-1.5 Gaussian primitive). -/
theorem c4_ssim_map_formula (B : ImgOp) (r c : ℕ) (f g : Img) (y x ch : ℕ) :
    ssimMap B r c f g y x ch =
      ((2 * (B r c (plane f ch) y x * B r c (plane g ch) y x) + 0.0001) *
        (2 * B r c (fun u v => f u v ch * g u v ch) y x -
          2 * (B r c (plane f ch) y x * B r c (plane g ch) y x) + 0.0004)) /
      ((B r c (plane f ch) y x ^ 2 + B r c (plane g ch) y x ^ 2 + 0.0001) *
        (B r c (fun u v => f u v ch ^ 2) y x + B r c (fun u v => g u v ch ^ 2) y x -
          (B r c (plane f ch) y x ^ 2 + B r c (plane g ch) y x ^ 2) + 0.0004)) := rfl

/-- C5: at scale 0 only, the edge penalty computes
`edgediff = max(|img2 - mu2| - |img1 - mu1|, 0)` per channel, remaps it to
`1 - edgediff`, averages each channel over the whole image with weights
`extra_edges_weight = {1.5, 0.1, 0.1, 0.5}`, and passes the unclamped remapped
map to the grid detector with weight row (variant) 1; iterations with a
nonzero scale add no edge or grid contribution. -/
theorem c5_edge_penalty_scale0 (B RQ : ImgOp) (r c ch : ℕ) (f g : Img) :
    (∀ y x i : ℕ, edgeDiff B r c f g y x i =
      max (|g y x i - B r c (plane g i) y x| - |f y x i - B r c (plane f i) y x|) 0) ∧
    (∀ y x i : ℕ, edgeMap B r c f g y x i = 1 - edgeDiff B r c f g y x i) ∧
    edgeContribs B r c ch f g =
      ((∑ i ∈ Finset.range ch,
          extra_edges_weight i * planeMean r c (plane (edgeMap B r c f g) i)) +
         (gridArtifacts r c ch (edgeMap B r c f g) 1).1,
       (∑ i ∈ Finset.range ch, extra_edges_weight i) +
         (gridArtifacts r c ch (edgeMap B r c f g) 1).2) ∧
    extra_edges_weight 0 = 1.5 ∧ extra_edges_weight 1 = 0.1 ∧
    extra_edges_weight 2 = 0.1 ∧ extra_edges_weight 3 = 0.5 ∧
    iterContrib B RQ r c ch 0 f g =
      edgeContribs B r c ch f g + gridArtifacts r c ch (ssimMap B r c f g) 0 +
        avgContrib r c ch 0 (ssimMap B r c f g) +
        minContrib RQ r c ch 0 (ssimMap B r c f g) ∧
    ∀ scale : ℕ, scale ≠ 0 →
      iterContrib B RQ r c ch scale f g =
        avgContrib r c ch scale (ssimMap B r c f g) +
          minContrib RQ r c ch scale (ssimMap B r c f g) := by
  refine ⟨fun _ _ _ => rfl, fun _ _ _ => rfl, rfl, ?_, ?_, ?_, ?_, ?_, ?_⟩
  · norm_num [extra_edges_weight, extra_edges_weight_table, List.getD_cons_zero]
  · norm_num [extra_edges_weight, extra_edges_weight_table]
  · norm_num [extra_edges_weight, extra_edges_weight_table]
  · norm_num [extra_edges_weight, extra_edges_weight_table]
  · simp [iterContrib]
  · intro scale hs
    simp only [iterContrib, if_neg hs, zero_add]

theorem c5_edge_penalty_scale0_witness :
    iterContrib idOp idOp 8 8 1 1 zeroImg zeroImg =
      avgContrib 8 8 1 1 (ssimMap idOp 8 8 zeroImg zeroImg) +
        minContrib idOp 8 8 1 1 (ssimMap idOp 8 8 zeroImg zeroImg) :=
  (c5_edge_penalty_scale0 idOp idOp 8 8 1 zeroImg zeroImg).2.2.2.2.2.2.2.2 1 (by decide)

/-- C6: the validation sequence fails with a dimension-mismatch error when the
rasters differ in width or height; with an image-too-small error when (the
dimensions agree and) either dimension is below 8; with a channel-mismatch
error when (the dimensions are valid and) the channel counts differ with one
side below 3 channels; and with an unsupported-channel-count error when the
final channel count is not 1, 3 or 4.  In every case exactly one error is
produced and no score is returned. -/
theorem c6_validation_errors (gam : ℕ → ℚ) (lab : ℚ → ℚ → ℚ → ℕ → ℚ)
    (B RH RQ : ImgOp) (im1 im2 : RawImage) :
    (im1.cols ≠ im2.cols ∨ im1.rows ≠ im2.rows →
      runProgram gam lab B RH RQ im1 im2 = .error .dimensionMismatch) ∧
    (im1.cols = im2.cols → im1.rows = im2.rows → im1.cols < 8 ∨ im1.rows < 8 →
      runProgram gam lab B RH RQ im1 im2 = .error .imageTooSmall) ∧
    (im1.cols = im2.cols → im1.rows = im2.rows → 8 ≤ im1.cols → 8 ≤ im1.rows →
      im1.ch ≠ im2.ch → im1.ch < 3 ∨ im2.ch < 3 →
      runProgram gam lab B RH RQ im1 im2 = .error .channelMismatch) ∧
    (im1.cols = im2.cols → im1.rows = im2.rows → 8 ≤ im1.cols → 8 ≤ im1.rows →
      ¬(im1.ch ≠ im2.ch ∧ (im1.ch < 3 ∨ im2.ch < 3)) →
      ¬(finalChannels im1.ch im2.ch = 3 ∨ finalChannels im1.ch im2.ch = 4 ∨
        finalChannels im1.ch im2.ch = 1) →
      runProgram gam lab B RH RQ im1 im2 = .error .unsupportedChannelCount) ∧
    ∀ (e : SsimError) (q : ℚ), runProgram gam lab B RH RQ im1 im2 = .error e →
      runProgram gam lab B RH RQ im1 im2 ≠ .ok q := by
  refine ⟨?_, ?_, ?_, ?_, ?_⟩
  · intro h
    simp only [runProgram]
    rw [if_pos h]
  · intro hc hr h
    simp only [runProgram]
    rw [if_neg (by simp [hc, hr]), if_pos h]
  · intro hc hr h8c h8r hch hlt
    simp only [runProgram]
    rw [if_neg (by simp [hc, hr]), if_neg (by omega), if_pos ⟨hch, hlt⟩]
  · intro hc hr h8c h8r hok hn
    simp only [runProgram]
    rw [if_neg (by simp [hc, hr]), if_neg (by omega), if_neg hok, if_neg hn]
  · intro e q he
    rw [he]
    exact fun hcontra => Except.noConfusion hcontra

theorem c6_validation_errors_witness :
    runProgram (fun _ => 0) (fun _ _ _ _ => 0) idOp idOp idOp
      ⟨8, 8, 1, fun _ _ _ => 0⟩ ⟨8, 9, 1, fun _ _ _ => 0⟩ =
      Except.error SsimError.dimensionMismatch ∧
    runProgram (fun _ => 0) (fun _ _ _ _ => 0) idOp idOp idOp
      ⟨4, 4, 1, fun _ _ _ => 0⟩ ⟨4, 4, 1, fun _ _ _ => 0⟩ =
      Except.error SsimError.imageTooSmall ∧
    runProgram (fun _ => 0) (fun _ _ _ _ => 0) idOp idOp idOp
      ⟨8, 8, 1, fun _ _ _ => 0⟩ ⟨8, 8, 3, fun _ _ _ => 0⟩ =
      Except.error SsimError.channelMismatch ∧
    runProgram (fun _ => 0) (fun _ _ _ _ => 0) idOp idOp idOp
      ⟨8, 8, 2, fun _ _ _ => 0⟩ ⟨8, 8, 2, fun _ _ _ => 0⟩ =
      Except.error SsimError.unsupportedChannelCount :=
  ⟨(c6_validation_errors _ _ _ _ _ _ _).1 (by decide),
   (c6_validation_errors _ _ _ _ _ _ _).2.1 rfl rfl (by decide),
   (c6_validation_errors _ _ _ _ _ _ _).2.2.1 rfl rfl (by decide) (by decide)
     (by decide) (by decide),
   (c6_validation_errors _ _ _ _ _ _ _).2.2.2.1 rfl rfl (by decide) (by decide)
     (by decide) (by decide)⟩

/-- C7: for grayscale input the normalized buffer handed to the SSIM pipeline
holds, at every pixel, exactly the original 8-bit sample divided by 255, for
every gamma lookup curve and every Lab conversion function - that is, neither
the sRGB-to-linear mapping nor the Lab conversion is applied. -/
theorem c7_grayscale_normalization (gam : ℕ → ℚ) (lab : ℚ → ℚ → ℚ → ℕ → ℚ)
    (px : ℕ → ℕ → ℕ → ℕ) (y x c : ℕ) :
    normalizeImg gam lab 1 px y x c = (px y x 0 : ℚ) / 255 := by
  simp [normalizeImg]

/-- C8: when there are 4 channels, before gamma linearization each color
channel of every pixel is replaced by `(alpha*c + (255 - alpha)*128) / 255`
in truncating integer arithmetic, using that pixel's own alpha, independently
per channel; the alpha channel itself is untouched by this step, a fully
opaque pixel is unchanged, and the gamma lookup is applied to the blended
samples. -/
theorem c8_alpha_blend :
    (∀ (px : ℕ → ℕ → ℕ → ℕ) (y x c : ℕ), c < 3 →
      blendImage px y x c = (px y x 3 * px y x c + (255 - px y x 3) * 128) / 255) ∧
    (∀ (px : ℕ → ℕ → ℕ → ℕ) (y x : ℕ), blendImage px y x 3 = px y x 3) ∧
    (∀ (px : ℕ → ℕ → ℕ → ℕ) (y x c : ℕ), px y x 3 = 255 →
      blendImage px y x c = px y x c) ∧
    ∀ (gam : ℕ → ℚ) (lab : ℚ → ℚ → ℚ → ℕ → ℚ) (px : ℕ → ℕ → ℕ → ℕ),
      normalizeImg gam lab 4 px = labStage lab fun y x c => gam (blendImage px y x c) := by
  refine ⟨?_, ?_, ?_, ?_⟩
  · intro px y x c hc
    simp [blendImage, alphaBlend, hc]
  · intro px y x
    simp [blendImage]
  · intro px y x c h255
    unfold blendImage alphaBlend
    split_ifs with hc
    · rw [h255]
      omega
    · rfl
  · intro gam lab px
    simp [normalizeImg]

theorem c8_alpha_blend_witness :
    blendImage (fun _ _ _ => 200) 0 0 0 = (200 * 200 + (255 - 200) * 128) / 255 ∧
    blendImage (fun _ _ _ => 255) 0 0 1 = 255 :=
  ⟨c8_alpha_blend.1 (fun _ _ _ => 200) 0 0 0 (by decide),
   c8_alpha_blend.2.2.1 (fun _ _ _ => 255) 0 0 1 rfl⟩

/-- C9: the multi-scale loop executes at most 6 iterations, at least 1 when
the input is at least 8×8, never processes a scale at which either iterated
half-dimension has dropped below 8, and the dimensions at iteration `k` are
the `k`-fold halving of the initial dimensions. -/
theorem c9_scale_loop_termination (B RH RQ : ImgOp) (r c ch : ℕ) (f g : Img) :
    (runCore B RH RQ r c ch f g).iters = numScales r c ∧
    numScales r c ≤ 6 ∧
    (8 ≤ r → 8 ≤ c → 1 ≤ numScales r c) ∧
    ∀ k : ℕ, k < numScales r c → 8 ≤ halfDim^[k] r ∧ 8 ≤ halfDim^[k] c := by
  refine ⟨?_, numScalesAux_le 6 r c,
    fun hr hc => numScalesAux_pos 6 r c (by omega) hr hc,
    fun k hk => numScalesAux_dims 6 r c k hk⟩
  unfold runCore numScales
  rw [loopScales_iters]
  simp

theorem c9_scale_loop_termination_witness :
    1 ≤ numScales 16 16 ∧
      (runCore idOp idOp idOp 16 16 1 zeroImg zeroImg).iters = numScales 16 16 :=
  ⟨(c9_scale_loop_termination idOp idOp idOp 16 16 1 zeroImg zeroImg).2.2.1
      (by decide) (by decide),
   (c9_scale_loop_termination idOp idOp idOp 16 16 1 zeroImg zeroImg).1⟩

/-- C10: the accumulated weight sum `score_max` is a function of the image
dimensions and channel count alone - it equals `scoreMaxSpec` of the channel
count and the number of executed scales, and in particular does not depend on
the pixel data. -/
theorem c10_score_max_function_of_dims (B RH RQ : ImgOp) (r c ch : ℕ)
    (f g f' g' : Img) :
    (runCore B RH RQ r c ch f g).scoreMax = scoreMaxSpec ch (numScales r c) ∧
    (runCore B RH RQ r c ch f g).scoreMax = (runCore B RH RQ r c ch f' g').scoreMax := by
  refine ⟨runCore_scoreMax B RH RQ r c ch f g, ?_⟩
  rw [runCore_scoreMax, runCore_scoreMax]

end SsimX
